import Mathlib

/-!
# tabserv: session registry and broadcast relay

A shallow embedding of `sessions.go` (and of the parts of `websocket.go` that
call into it) together with proofs of the properties of the claim protocol,
the registry and the broadcast fan-out.

Modelling conventions.

* A `*WsChannel` is a heap object compared by pointer in the source.  Here a
  handle is the value `WsChannel`, whose field `ptr` stands for the address of
  the object; two handles are the same handle exactly when they are equal.
* The global `sessions map[string]*Session` is a finite map from session ids to
  sessions, represented by its lookup function.  Every `*Session` is reachable
  only through the map entry it was stored under (`registerWs` is the only
  place that allocates one), so a mutation through the pointer is a write to
  that entry.
* A send `wc.SendChannel <- &sents` is recorded by appending the payload to the
  log of messages sent on that handle's channel (oldest first); calling
  `wc.CancelFunc()` is recorded by setting the handle's cancellation flag.
* `json.Unmarshal` and `json.Marshal` belong to the Go standard library; they
  are parameters of the functions that call them, with the `err` result kept.
* The field `Transpose` is a Go `int`; no arithmetic is done on it, so it is an `Int`.
* The functions run one after the other, each to completion; the source takes no
  lock, and interleavings inside a function are outside this development.
* Log output is not part of the state.
-/

namespace Tabserv

/-- The type `SessionData` of `sessions.go`. -/
structure SessionData where
  SongPath : String
  Transpose : Int
  Section : String
  deriving DecidableEq, Repr

/-- The type `SessionDataMsg` of `sessions.go`: an embedded `SessionData` plus the key. -/
structure SessionDataMsg extends SessionData where
  ClientKey : String
  deriving DecidableEq, Repr

/-- The type `WsChannel` of `websocket.go`.  The field `ptr` is the identity of the
heap object and so of the `SendChannel` and `CancelFunc` it owns. -/
structure WsChannel where
  ptr : Nat
  SessionId : String
  deriving DecidableEq, Repr

/-- The type `Session` of `sessions.go`. -/
structure Session where
  Channels : List WsChannel
  SessionId : String
  SessionKey : String
  SessionData : SessionData
  deriving DecidableEq, Repr

/-- The contents of a `map[string]*Session`. -/
abbrev SessionMap := String → Option Session

/-- The Go statement `m[k] = v`. -/
def SessionMap.store (m : SessionMap) (k : String) (v : Session) : SessionMap :=
  fun k' => if k' = k then some v else m k'

/-- The Go statement `delete(m, k)`. -/
def SessionMap.delete (m : SessionMap) (k : String) : SessionMap :=
  fun k' => if k' = k then none else m k'

/-- The state the functions of `sessions.go` act on: the global `sessions`, and for
every handle the messages sent on its `SendChannel` and whether its `CancelFunc`
was called. -/
@[ext]
structure State where
  sessions : SessionMap
  SendChannel : WsChannel → List String
  Cancelled : WsChannel → Bool

/-- The result type of `json.Unmarshal` into a fresh `SessionDataMsg`. -/
abbrev Unmarshal := String → Except String SessionDataMsg

/-- The result type of `json.Marshal` of a `*SessionData`. -/
abbrev Marshal := SessionData → Except String String

/-- The function `initSessions`: an empty map; nothing was sent, nothing cancelled. -/
def initSessions : State :=
  { sessions := fun _ => none, SendChannel := fun _ => [], Cancelled := fun _ => false }

/-- The statement `wc.SendChannel <- &sents`. -/
def send (wc : WsChannel) (sents : String) (st : State) : State :=
  { st with SendChannel := fun h => if h = wc then st.SendChannel h ++ [sents] else st.SendChannel h }

/-- The call `wc.CancelFunc()`. -/
def cancel (wc : WsChannel) (st : State) : State :=
  { st with Cancelled := fun h => if h = wc then true else st.Cancelled h }

/-- The function `registerWs`. -/
def registerWs (wc : WsChannel) (st : State) : State :=
  let session : Session :=
    match st.sessions wc.SessionId with
    | some session => session
    | none =>
      { SessionId := wc.SessionId, SessionKey := "", Channels := [],
        SessionData := { SongPath := "", Transpose := 0, Section := "" } }
  { st with sessions :=
      st.sessions.store wc.SessionId { session with Channels := session.Channels ++ [wc] } }

/-- The function `sendUpdateTo`. -/
def sendUpdateTo (marshal : Marshal) (wc : WsChannel) (st : State) : State :=
  match st.sessions wc.SessionId with
  | none => st
  | some session =>
    match marshal session.SessionData with
    | .error _ => st
    | .ok sents => send wc sents st

/-- The loop of `deregisterWs`, `for idx, nwc := range session.Channels`, on the
backing array `arr`: `todo` iterations remain, the next one reads index `idx`, and
`i` elements were kept so far.  Returns the final `i` and the array. -/
def deregisterLoop (wc : WsChannel) : Nat → Nat → Nat → List WsChannel → Nat × List WsChannel
  | 0, _, i, arr => (i, arr)
  | todo + 1, idx, i, arr =>
    match arr[idx]? with
    | none => (i, arr)
    | some nwc =>
      if wc ≠ nwc then deregisterLoop wc todo (idx + 1) (i + 1) (arr.set i nwc)
      else deregisterLoop wc todo (idx + 1) i arr

/-- The function `deregisterWs`.  After `delete(sessions, wc.SessionId)` the session
object is no longer reachable, so the final `session.Channels = session.Channels[:i]`
is a write to the map entry only when the session was kept. -/
def deregisterWs (wc : WsChannel) (st : State) : State :=
  match st.sessions wc.SessionId with
  | none => st
  | some session =>
    let r := deregisterLoop wc session.Channels.length 0 0 session.Channels
    if r.1 = 0 then
      { st with sessions := st.sessions.delete wc.SessionId }
    else
      { st with sessions :=
          st.sessions.store wc.SessionId { session with Channels := r.2.take r.1 } }

/-- The loop `for _, wc := range session.Channels { wc.SendChannel <- &sents }`. -/
def broadcast (sents : String) (channels : List WsChannel) (st : State) : State :=
  channels.foldl (fun acc wc => send wc sents acc) st

/-- The function `processMessage`. -/
def processMessage (unmarshal : Unmarshal) (marshal : Marshal)
    (sender : WsChannel) (message : String) (st : State) : State :=
  match st.sessions sender.SessionId with
  | none => cancel sender st
  | some session =>
    match unmarshal message with
    | .error _ => st
    | .ok messageData =>
      let session : Session :=
        if session.SessionKey = "" ∧ messageData.ClientKey ≠ "" then
          { session with SessionKey := messageData.ClientKey }
        else session
      let hasKey : Bool := decide (messageData.ClientKey = session.SessionKey)
      let session : Session :=
        if messageData.Section ≠ "" then
          { session with SessionData := { session.SessionData with Section := messageData.Section } }
        else session
      if hasKey then
        let session : Session :=
          if messageData.SongPath ≠ "" then
            { session with SessionData := { session.SessionData with SongPath := messageData.SongPath } }
          else session
        let session : Session :=
          { session with SessionData := { session.SessionData with Transpose := messageData.Transpose } }
        let st : State := { st with sessions := st.sessions.store sender.SessionId session }
        match marshal session.SessionData with
        | .error _ => st
        | .ok sents => broadcast sents session.Channels st
      else
        { st with sessions := st.sessions.store sender.SessionId session }

/-- The function `cleanupWs` of `websocket.go`. -/
def cleanupWs (ch : WsChannel) (st : State) : State :=
  cancel ch (deregisterWs ch st)

/-- One call into the registry, as made by `serveWs` and `receiveWorker`. -/
inductive Call where
  | registerWs (wc : WsChannel)
  | deregisterWs (wc : WsChannel)
  | sendUpdateTo (wc : WsChannel)
  | processMessage (sender : WsChannel) (message : String)
  deriving DecidableEq, Repr

/-- The effect of one call. -/
def Call.apply (unmarshal : Unmarshal) (marshal : Marshal) (st : State) : Call → State
  | .registerWs wc => Tabserv.registerWs wc st
  | .deregisterWs wc => Tabserv.deregisterWs wc st
  | .sendUpdateTo wc => Tabserv.sendUpdateTo marshal wc st
  | .processMessage sender message => Tabserv.processMessage unmarshal marshal sender message st

/-- The registry after a sequence of calls, starting from `initSessions`. -/
def run (unmarshal : Unmarshal) (marshal : Marshal) (calls : List Call) : State :=
  calls.foldl (Call.apply unmarshal marshal) initSessions

/-- The read loop of `receiveWorker` on one session: every pair is a sender and the
text it read, handed to `processMessage` in order. -/
def processMessages (unmarshal : Unmarshal) (marshal : Marshal)
    (inbound : List (WsChannel × String)) (st : State) : State :=
  inbound.foldl (fun acc p => processMessage unmarshal marshal p.1 p.2 acc) st

/-- Following the spec's words (attach adds a handle to the members, detach removes
it): the effect of one call on the list of handles currently attached. -/
def attachedStep (members : List WsChannel) : Call → List WsChannel
  | .registerWs wc => members ++ [wc]
  | .deregisterWs wc => members.filter (fun nwc => decide (wc ≠ nwc))
  | .sendUpdateTo _ => members
  | .processMessage _ _ => members

/-- Following the spec's words: the handles attached by a sequence of calls and not
detached since, in order of attachment. -/
def attached (calls : List Call) : List WsChannel :=
  calls.foldl attachedStep []

/-- The registry `st` holds exactly the attached handles `members`: under every id it has
no session when no attached handle carries that id, and otherwise a session of that id
whose member list is the attached handles carrying it, in order of attachment. -/
def Refines (st : State) (members : List WsChannel) : Prop :=
  ∀ id : String,
    (st.sessions id = none → members.filter (fun wc => decide (wc.SessionId = id)) = []) ∧
    (∀ session, st.sessions id = some session →
      session.Channels = members.filter (fun wc => decide (wc.SessionId = id)) ∧
      session.Channels ≠ [] ∧ session.SessionId = id)

/-- Whether every `registerWs` of a sequence of calls is given a handle that is not
attached at that moment, `members` being the handles attached at the start.  This is how
`serveWs` calls it: once, on the handle it has just created. -/
def registersFresh : List WsChannel → List Call → Bool
  | _, [] => true
  | members, c :: rest =>
    (match c with
      | .registerWs wc => decide (wc ∉ members)
      | _ => true) && registersFresh (attachedStep members c) rest

/-- A fixed decoder used to evaluate the functions on concrete inputs: it knows a
handful of message texts and rejects every other text. -/
def sampleUnmarshal : Unmarshal := fun text =>
  if text = "\x7b\"clientKey\":\"k1\",\"transpose\":5\x7d" then
    .ok { SongPath := "", Transpose := 5, Section := "", ClientKey := "k1" }
  else if text = "\x7b\"clientKey\":\"bad\",\"transpose\":9\x7d" then
    .ok { SongPath := "", Transpose := 9, Section := "", ClientKey := "bad" }
  else if text = "\x7b\"section\":\"verse2\"\x7d" then
    .ok { SongPath := "", Transpose := 0, Section := "verse2", ClientKey := "" }
  else if text = "\x7b\"clientKey\":\"k1\",\"songPath\":\"a.tab\"\x7d" then
    .ok { SongPath := "a.tab", Transpose := 0, Section := "", ClientKey := "k1" }
  else .error "invalid character"

/-- A fixed encoder used to evaluate the functions on concrete inputs: the JSON object
with the `omitempty` fields left out when empty, for strings that need no escaping. -/
def sampleMarshal : Marshal := fun d =>
  .ok ("\x7b" ++ (if d.SongPath = "" then "" else "\"songPath\":\"" ++ d.SongPath ++ "\",") ++
    "\"transpose\":" ++ toString d.Transpose ++
    (if d.Section = "" then "" else ",\"section\":\"" ++ d.Section ++ "\"") ++ "\x7d")

/-! ## Auxiliary facts -/

theorem SessionMap.store_self (m : SessionMap) (k : String) (v : Session) :
    m.store k v k = some v := if_pos rfl

theorem SessionMap.store_other (m : SessionMap) (k k' : String) (v : Session) (h : k' ≠ k) :
    m.store k v k' = m k' := if_neg h

theorem SessionMap.delete_self (m : SessionMap) (k : String) :
    m.delete k k = none := if_pos rfl

theorem SessionMap.delete_other (m : SessionMap) (k k' : String) (h : k' ≠ k) :
    m.delete k k' = m k' := if_neg h

theorem broadcast_sessions (sents : String) (channels : List WsChannel) (st : State) :
    (broadcast sents channels st).sessions = st.sessions ∧
    (broadcast sents channels st).Cancelled = st.Cancelled := by
  induction channels generalizing st with
  | nil => exact ⟨rfl, rfl⟩
  | cons wc rest ih =>
    have h := ih (send wc sents st)
    simpa [broadcast, send] using h

theorem broadcast_SendChannel (sents : String) (channels : List WsChannel) (st : State)
    (h : WsChannel) :
    (broadcast sents channels st).SendChannel h =
      st.SendChannel h ++ List.replicate (channels.count h) sents := by
  induction channels generalizing st with
  | nil => simp [broadcast]
  | cons wc rest ih =>
    have hrec := ih (send wc sents st)
    simp only [broadcast, List.foldl_cons] at hrec ⊢
    rw [hrec]
    by_cases hw : h = wc
    · subst hw
      simp [send, List.count_cons_self, List.replicate_succ]
    · have hw2 : wc ≠ h := fun e => hw e.symm
      simp [send, hw, List.count_cons_of_ne hw2]

/-- The loop of `deregisterWs` compacts the elements different from `wc` to the front:
started on `kept ++ junk ++ rest` with `rest` still to read, it ends with
`kept ++ rest.filter (· ≠ wc)` in front and `i` its length. -/
theorem deregisterLoop_spec (wc : WsChannel) :
    ∀ (rest kept junk : List WsChannel),
      ∃ tail : List WsChannel,
        deregisterLoop wc rest.length (kept.length + junk.length) kept.length
            (kept ++ junk ++ rest) =
          (kept.length + (rest.filter (fun nwc => decide (wc ≠ nwc))).length,
            kept ++ rest.filter (fun nwc => decide (wc ≠ nwc)) ++ tail) := by
  intro rest
  induction rest with
  | nil =>
    intro kept junk
    exact ⟨junk, by simp [deregisterLoop]⟩
  | cons x rest ih =>
    intro kept junk
    have hget : (kept ++ junk ++ x :: rest)[kept.length + junk.length]? = some x := by
      rw [← List.length_append, List.getElem?_append_right (le_refl _)]
      simp
    have hlen : (x :: rest).length = rest.length + 1 := rfl
    rw [hlen, deregisterLoop, hget]
    dsimp only
    by_cases hx : wc = x
    · obtain ⟨tail, ht⟩ := ih kept (junk ++ [x])
      have e1 : kept.length + (junk ++ [x]).length = kept.length + junk.length + 1 := by
        simp [add_assoc]
      have e2 : kept ++ (junk ++ [x]) ++ rest = kept ++ junk ++ x :: rest := by simp
      have e3 : (x :: rest).filter (fun nwc => decide (wc ≠ nwc)) =
          rest.filter (fun nwc => decide (wc ≠ nwc)) := by
        rw [List.filter_cons_of_neg]; simp [hx]
      rw [e1, e2] at ht
      refine ⟨tail, ?_⟩
      rw [if_neg (fun hne => hne hx), e3, ht]
    · have e3 : (x :: rest).filter (fun nwc => decide (wc ≠ nwc)) =
          x :: rest.filter (fun nwc => decide (wc ≠ nwc)) := by
        rw [List.filter_cons_of_pos]; simp [hx]
      rw [if_pos hx, e3]
      cases junk with
      | nil =>
        obtain ⟨tail, ht⟩ := ih (kept ++ [x]) []
        have e1 : (kept ++ [x]).length + ([] : List WsChannel).length =
            kept.length + ([] : List WsChannel).length + 1 := by simp
        have e2 : kept ++ [x] ++ [] ++ rest = (kept ++ [] ++ x :: rest).set kept.length x := by
          simp
        have e4 : (kept ++ [x]).length = kept.length + 1 := by simp
        rw [e1, e2, e4] at ht
        refine ⟨tail, ?_⟩
        rw [ht]
        simp [add_assoc, add_comm 1]
      | cons j junk =>
        obtain ⟨tail, ht⟩ := ih (kept ++ [x]) (junk ++ [x])
        have e1 : (kept ++ [x]).length + (junk ++ [x]).length =
            kept.length + (j :: junk).length + 1 := by
          simp only [List.length_append, List.length_cons, List.length_nil]; omega
        have e2 : kept ++ [x] ++ (junk ++ [x]) ++ rest =
            (kept ++ j :: junk ++ x :: rest).set kept.length x := by
          simp
        have e4 : (kept ++ [x]).length = kept.length + 1 := by simp
        rw [e1, e2, e4] at ht
        refine ⟨tail, ?_⟩
        rw [ht]
        simp [add_assoc, add_comm 1]

/-- The function `deregisterWs` in terms of `List.filter`. -/
theorem deregisterWs_eq (wc : WsChannel) (st : State) :
    deregisterWs wc st =
      match st.sessions wc.SessionId with
      | none => st
      | some session =>
        if session.Channels.filter (fun nwc => decide (wc ≠ nwc)) = [] then
          { st with sessions := st.sessions.delete wc.SessionId }
        else
          { st with sessions := st.sessions.store wc.SessionId { session with Channels := session.Channels.filter (fun nwc => decide (wc ≠ nwc)) } } := by
  unfold deregisterWs
  cases hs : st.sessions wc.SessionId with
  | none => rfl
  | some session =>
    obtain ⟨tail, ht⟩ := deregisterLoop_spec wc session.Channels [] []
    simp only [List.length_nil, add_zero, List.nil_append, zero_add] at ht
    simp only [ht, List.length_eq_zero, List.take_left]

/-- The function `processMessage` on a decoded message for an existing session, with the
session it stores written out field by field. -/
theorem processMessage_decoded (unmarshal : Unmarshal) (marshal : Marshal)
    (sender : WsChannel) (message : String) (st : State)
    (session : Session) (messageData : SessionDataMsg)
    (hs : st.sessions sender.SessionId = some session)
    (hd : unmarshal message = .ok messageData) :
    processMessage unmarshal marshal sender message st =
      if messageData.ClientKey =
          (if session.SessionKey = "" ∧ messageData.ClientKey ≠ "" then messageData.ClientKey
           else session.SessionKey) then
        match marshal
            ⟨if messageData.SongPath ≠ "" then messageData.SongPath
              else session.SessionData.SongPath,
             messageData.Transpose,
             if messageData.Section ≠ "" then messageData.Section
              else session.SessionData.Section⟩ with
        | .error _ =>
          { st with
            sessions := st.sessions.store sender.SessionId
              ⟨session.Channels, session.SessionId, messageData.ClientKey,
                ⟨if messageData.SongPath ≠ "" then messageData.SongPath
                  else session.SessionData.SongPath,
                 messageData.Transpose,
                 if messageData.Section ≠ "" then messageData.Section
                  else session.SessionData.Section⟩⟩ }
        | .ok sents =>
          broadcast sents session.Channels
            { st with
              sessions := st.sessions.store sender.SessionId
                ⟨session.Channels, session.SessionId, messageData.ClientKey,
                  ⟨if messageData.SongPath ≠ "" then messageData.SongPath
                    else session.SessionData.SongPath,
                   messageData.Transpose,
                   if messageData.Section ≠ "" then messageData.Section
                    else session.SessionData.Section⟩⟩ }
      else
        { st with
          sessions := st.sessions.store sender.SessionId
            ⟨session.Channels, session.SessionId, session.SessionKey,
              ⟨session.SessionData.SongPath, session.SessionData.Transpose,
               if messageData.Section ≠ "" then messageData.Section
                else session.SessionData.Section⟩⟩ } := by
  unfold processMessage
  simp only [hs, hd]
  by_cases h1 : session.SessionKey = "" ∧ messageData.ClientKey ≠ ""
  · simp only [h1, and_self, if_true, decide_True, ne_eq, not_false_eq_true]
    by_cases h2 : messageData.Section = "" <;> by_cases h3 : messageData.SongPath = "" <;>
      simp only [h2, h3, if_true, if_false, not_true_eq_false, not_false_eq_true]
  · simp only [h1, if_false]
    by_cases h4 : messageData.ClientKey = session.SessionKey
    · simp only [h4, decide_True, if_true]
      by_cases h2 : messageData.Section = "" <;> by_cases h3 : messageData.SongPath = "" <;>
        simp only [h2, h3, if_true, if_false, not_true_eq_false, not_false_eq_true, ne_eq]
    · simp only [h4, decide_False, if_false, Bool.false_eq_true]
      by_cases h2 : messageData.Section = "" <;>
        simp only [h2, if_true, if_false, not_true_eq_false, not_false_eq_true, ne_eq]

/-- What `processMessage` does to the session stored under the sender's id, for any text:
the session stays, with the same members and id, and its key is the claimed one. -/
theorem processMessage_sender_session (unmarshal : Unmarshal) (marshal : Marshal)
    (sender : WsChannel) (message : String) (st : State) (session : Session)
    (hs : st.sessions sender.SessionId = some session) :
    ∃ session', (processMessage unmarshal marshal sender message st).sessions sender.SessionId
        = some session' ∧
      session'.Channels = session.Channels ∧ session'.SessionId = session.SessionId ∧
      session'.SessionKey =
        (match unmarshal message with
         | .error _ => session.SessionKey
         | .ok messageData =>
           if session.SessionKey = "" ∧ messageData.ClientKey ≠ "" then messageData.ClientKey
           else session.SessionKey) := by
  cases hd : unmarshal message with
  | error e =>
    refine ⟨session, ?_, rfl, rfl, rfl⟩
    unfold processMessage
    simp [hs, hd]
  | ok messageData =>
    rw [processMessage_decoded unmarshal marshal sender message st session messageData hs hd]
    by_cases hauth : messageData.ClientKey =
        (if session.SessionKey = "" ∧ messageData.ClientKey ≠ "" then messageData.ClientKey
         else session.SessionKey)
    · rw [if_pos hauth]
      split
      · exact ⟨_, if_pos rfl, rfl, rfl, hauth⟩
      · rw [(broadcast_sessions _ _ _).1]
        exact ⟨_, if_pos rfl, rfl, rfl, hauth⟩
    · rw [if_neg hauth]
      refine ⟨_, if_pos rfl, rfl, rfl, ?_⟩
      have hk : ¬ (session.SessionKey = "" ∧ messageData.ClientKey ≠ "") := by
        intro hc
        exact hauth (by rw [if_pos hc])
      simp only [hk, if_false]

/-- The function `processMessage` leaves the sessions stored under other ids alone. -/
theorem processMessage_other_session (unmarshal : Unmarshal) (marshal : Marshal)
    (sender : WsChannel) (message : String) (st : State) (id : String)
    (hid : id ≠ sender.SessionId) :
    (processMessage unmarshal marshal sender message st).sessions id = st.sessions id := by
  cases hs : st.sessions sender.SessionId with
  | none =>
    unfold processMessage
    simp [hs, cancel]
  | some session =>
    cases hd : unmarshal message with
    | error e =>
      unfold processMessage
      simp [hs, hd]
    | ok messageData =>
      rw [processMessage_decoded unmarshal marshal sender message st session messageData hs hd]
      by_cases hauth : messageData.ClientKey =
          (if session.SessionKey = "" ∧ messageData.ClientKey ≠ "" then messageData.ClientKey
           else session.SessionKey)
      · rw [if_pos hauth]
        split
        · exact if_neg hid
        · rw [(broadcast_sessions _ _ _).1]
          exact if_neg hid
      · rw [if_neg hauth]
        exact if_neg hid

/-- The function `processMessage` creates no session. -/
theorem processMessage_absent_session (unmarshal : Unmarshal) (marshal : Marshal)
    (sender : WsChannel) (message : String) (st : State)
    (hs : st.sessions sender.SessionId = none) :
    (processMessage unmarshal marshal sender message st).sessions = st.sessions := by
  unfold processMessage
  simp [hs, cancel]

/-- The function `sendUpdateTo` does not touch the session map. -/
theorem sendUpdateTo_sessions (marshal : Marshal) (wc : WsChannel) (st : State) :
    (sendUpdateTo marshal wc st).sessions = st.sessions := by
  unfold sendUpdateTo
  split
  · rfl
  · split <;> rfl

/-- A session whose key is set keeps that key through any run of `processMessage`
calls made by senders of that session. -/
theorem processMessages_key_kept (unmarshal : Unmarshal) (marshal : Marshal) (id : String) :
    ∀ (inbound : List (WsChannel × String)) (st : State) (session : Session),
      st.sessions id = some session → session.SessionKey ≠ "" →
      (∀ p ∈ inbound, p.1.SessionId = id) →
      ∃ session', (processMessages unmarshal marshal inbound st).sessions id = some session' ∧
        session'.SessionKey = session.SessionKey := by
  intro inbound
  induction inbound with
  | nil => intro st session hs _ _; exact ⟨session, hs, rfl⟩
  | cons p rest ih =>
    intro st session hs hk hsend
    have hp : p.1.SessionId = id := hsend p (List.mem_cons_self _ _)
    subst hp
    obtain ⟨s1, h1, _, _, hkey⟩ :=
      processMessage_sender_session unmarshal marshal p.1 p.2 st session hs
    have hk1 : s1.SessionKey = session.SessionKey := by
      rw [hkey]
      split
      · rfl
      · exact if_neg (fun hc => hk hc.1)
    obtain ⟨s2, h2, hk2⟩ := ih (processMessage unmarshal marshal p.1 p.2 st) s1 h1
      (by rw [hk1]; exact hk) (fun q hq => hsend q (List.mem_cons_of_mem _ hq))
    exact ⟨s2, h2, hk2.trans hk1⟩

/-- An unclaimed session stays unclaimed through a run of `processMessage` calls in which
every text that decodes carries an empty key. -/
theorem processMessages_key_empty (unmarshal : Unmarshal) (marshal : Marshal) (id : String) :
    ∀ (inbound : List (WsChannel × String)) (st : State) (session : Session),
      st.sessions id = some session → session.SessionKey = "" →
      (∀ p ∈ inbound, p.1.SessionId = id) →
      (∀ p ∈ inbound, ∀ m, unmarshal p.2 = .ok m → m.ClientKey = "") →
      ∃ session', (processMessages unmarshal marshal inbound st).sessions id = some session' ∧
        session'.SessionKey = "" := by
  intro inbound
  induction inbound with
  | nil => intro st session hs hk _ _; exact ⟨session, hs, hk⟩
  | cons p rest ih =>
    intro st session hs hk hsend hkeys
    have hp : p.1.SessionId = id := hsend p (List.mem_cons_self _ _)
    subst hp
    obtain ⟨s1, h1, _, _, hkey⟩ :=
      processMessage_sender_session unmarshal marshal p.1 p.2 st session hs
    have hk1 : s1.SessionKey = "" := by
      rw [hkey]
      cases hd : unmarshal p.2 with
      | error e => exact hk
      | ok m =>
        have hm : m.ClientKey = "" := hkeys p (List.mem_cons_self _ _) m hd
        simp [hm, hk]
    exact ih (processMessage unmarshal marshal p.1 p.2 st) s1 h1 hk1
      (fun q hq => hsend q (List.mem_cons_of_mem _ hq))
      (fun q hq => hkeys q (List.mem_cons_of_mem _ hq))

theorem processMessages_append (unmarshal : Unmarshal) (marshal : Marshal)
    (xs ys : List (WsChannel × String)) (st : State) :
    processMessages unmarshal marshal (xs ++ ys) st =
      processMessages unmarshal marshal ys (processMessages unmarshal marshal xs st) := by
  simp [processMessages, List.foldl_append]

/-! ## The registry and the attached handles -/

theorem refines_initSessions : Refines initSessions [] := by
  intro id
  refine ⟨fun _ => rfl, ?_⟩
  intro session hs
  cases hs

theorem refines_registerWs (wc : WsChannel) (st : State) (members : List WsChannel)
    (h : Refines st members) : Refines (registerWs wc st) (members ++ [wc]) := by
  intro id
  by_cases hid : id = wc.SessionId
  · subst hid
    have hlook : ∀ s0, (registerWs wc st).sessions wc.SessionId = some s0 →
        s0 = { (match st.sessions wc.SessionId with
                | some session => session
                | none => ⟨[], wc.SessionId, "", ⟨"", 0, ""⟩⟩) with
               Channels := (match st.sessions wc.SessionId with
                | some session => session
                | none => ⟨[], wc.SessionId, "", ⟨"", 0, ""⟩⟩).Channels ++ [wc] } := by
      intro s0 hs0
      have : (registerWs wc st).sessions wc.SessionId = some _ := if_pos rfl
      rw [this] at hs0
      exact (Option.some.inj hs0).symm
    constructor
    · intro hnone
      have : (registerWs wc st).sessions wc.SessionId = some _ := if_pos rfl
      rw [this] at hnone
      cases hnone
    · intro s0 hs0
      rw [hlook s0 hs0]
      cases hs : st.sessions wc.SessionId with
      | none =>
        have hf := (h wc.SessionId).1 hs
        simp [List.filter_append, hf]
      | some session =>
        obtain ⟨hc, _, hsid⟩ := (h wc.SessionId).2 session hs
        simp [List.filter_append, ← hc, hsid]
  · have hne : wc.SessionId ≠ id := fun e => hid e.symm
    have hsame : (registerWs wc st).sessions id = st.sessions id := if_neg hid
    have hf : (members ++ [wc]).filter (fun wc => decide (wc.SessionId = id)) =
        members.filter (fun wc => decide (wc.SessionId = id)) := by
      simp [List.filter_append, hne]
    rw [hsame, hf]
    exact h id

theorem filter_ne_filter_id (wc : WsChannel) (id : String) (members : List WsChannel) :
    (members.filter (fun nwc => decide (wc ≠ nwc))).filter (fun h => decide (h.SessionId = id)) =
      (members.filter (fun h => decide (h.SessionId = id))).filter
        (fun nwc => decide (wc ≠ nwc)) := by
  rw [List.filter_filter, List.filter_filter]
  apply List.filter_congr
  intro x _
  exact Bool.and_comm _ _

theorem filter_ne_other_id (wc : WsChannel) (id : String) (members : List WsChannel)
    (hid : id ≠ wc.SessionId) :
    (members.filter (fun nwc => decide (wc ≠ nwc))).filter (fun h => decide (h.SessionId = id)) =
      members.filter (fun h => decide (h.SessionId = id)) := by
  rw [List.filter_filter]
  apply List.filter_congr
  intro x _
  by_cases hx : x.SessionId = id
  · have : wc ≠ x := fun e => hid (by rw [e]; exact hx.symm)
    simp [hx, this]
  · simp [hx]

theorem refines_deregisterWs (wc : WsChannel) (st : State) (members : List WsChannel)
    (h : Refines st members) :
    Refines (deregisterWs wc st) (members.filter (fun nwc => decide (wc ≠ nwc))) := by
  intro id
  rw [deregisterWs_eq]
  by_cases hid : id = wc.SessionId
  · subst hid
    rw [filter_ne_filter_id]
    cases hs : st.sessions wc.SessionId with
    | none =>
      have hf := (h wc.SessionId).1 hs
      simp only [hs, hf, List.filter_nil]
      exact ⟨fun _ => trivial, fun session hc => by cases hc⟩
    | some session =>
      obtain ⟨hc, _, hsid⟩ := (h wc.SessionId).2 session hs
      simp only [← hc]
      by_cases hempty : session.Channels.filter (fun nwc => decide (wc ≠ nwc)) = []
      · rw [if_pos hempty]
        refine ⟨fun _ => hempty, ?_⟩
        intro s0 hs0
        simp only [SessionMap.delete_self] at hs0
        cases hs0
      · rw [if_neg hempty]
        constructor
        · intro hnone
          simp only [SessionMap.store_self] at hnone
          cases hnone
        · intro s0 hs0
          simp only [SessionMap.store_self] at hs0
          cases hs0
          exact ⟨rfl, hempty, hsid⟩
  · rw [filter_ne_other_id wc id members hid]
    have hsame : (match st.sessions wc.SessionId with
        | none => st
        | some session =>
          if session.Channels.filter (fun nwc => decide (wc ≠ nwc)) = [] then
            { st with sessions := st.sessions.delete wc.SessionId }
          else
            { st with sessions := st.sessions.store wc.SessionId { session with Channels := session.Channels.filter (fun nwc => decide (wc ≠ nwc)) } }).sessions id
        = st.sessions id := by
      split
      · rfl
      · split_ifs
        · exact if_neg hid
        · exact if_neg hid
    rw [hsame]
    exact h id

theorem refines_of_frame (st st' : State) (members : List WsChannel)
    (hnone : ∀ id, st.sessions id = none → st'.sessions id = none)
    (hsome : ∀ id session, st.sessions id = some session →
      ∃ session', st'.sessions id = some session' ∧ session'.Channels = session.Channels ∧
        session'.SessionId = session.SessionId)
    (h : Refines st members) : Refines st' members := by
  intro id
  cases hs : st.sessions id with
  | none =>
    have h1 := hnone id hs
    refine ⟨fun _ => (h id).1 hs, ?_⟩
    intro s0 hs0
    rw [h1] at hs0
    cases hs0
  | some session =>
    obtain ⟨s1, h1, hc, hi⟩ := hsome id session hs
    obtain ⟨hch, hne, hsid⟩ := (h id).2 session hs
    constructor
    · intro hn
      rw [h1] at hn
      cases hn
    · intro s0 hs0
      rw [h1] at hs0
      cases hs0
      exact ⟨hc.trans hch, by rw [hc]; exact hne, hi.trans hsid⟩

theorem refines_processMessage (unmarshal : Unmarshal) (marshal : Marshal)
    (sender : WsChannel) (message : String) (st : State) (members : List WsChannel)
    (h : Refines st members) :
    Refines (processMessage unmarshal marshal sender message st) members := by
  apply refines_of_frame st _ members _ _ h
  · intro id hs
    by_cases hid : id = sender.SessionId
    · subst hid
      rw [processMessage_absent_session unmarshal marshal sender message st hs]
      exact hs
    · rw [processMessage_other_session unmarshal marshal sender message st id hid]
      exact hs
  · intro id session hs
    by_cases hid : id = sender.SessionId
    · subst hid
      obtain ⟨s1, h1, hc, hi, _⟩ :=
        processMessage_sender_session unmarshal marshal sender message st session hs
      exact ⟨s1, h1, hc, hi⟩
    · rw [processMessage_other_session unmarshal marshal sender message st id hid]
      exact ⟨session, hs, rfl, rfl⟩

theorem refines_apply (unmarshal : Unmarshal) (marshal : Marshal) (c : Call)
    (st : State) (members : List WsChannel) (h : Refines st members) :
    Refines (c.apply unmarshal marshal st) (attachedStep members c) := by
  cases c with
  | registerWs wc => exact refines_registerWs wc st members h
  | deregisterWs wc => exact refines_deregisterWs wc st members h
  | sendUpdateTo wc =>
    apply refines_of_frame st _ members _ _ h
    · intro id hs
      show (sendUpdateTo marshal wc st).sessions id = none
      rw [sendUpdateTo_sessions]
      exact hs
    · intro id session hs
      refine ⟨session, ?_, rfl, rfl⟩
      show (sendUpdateTo marshal wc st).sessions id = some session
      rw [sendUpdateTo_sessions]
      exact hs
  | processMessage sender message =>
    exact refines_processMessage unmarshal marshal sender message st members h

theorem refines_foldl (unmarshal : Unmarshal) (marshal : Marshal) :
    ∀ (calls : List Call) (st : State) (members : List WsChannel), Refines st members →
      Refines (calls.foldl (Call.apply unmarshal marshal) st)
        (calls.foldl attachedStep members) := by
  intro calls
  induction calls with
  | nil => intro st members h; exact h
  | cons c rest ih =>
    intro st members h
    exact ih _ _ (refines_apply unmarshal marshal c st members h)

theorem refines_run (unmarshal : Unmarshal) (marshal : Marshal) (calls : List Call) :
    Refines (run unmarshal marshal calls) (attached calls) :=
  refines_foldl unmarshal marshal calls initSessions [] refines_initSessions

theorem attached_nodup_foldl :
    ∀ (calls : List Call) (members : List WsChannel), members.Nodup →
      registersFresh members calls = true → (calls.foldl attachedStep members).Nodup := by
  intro calls
  induction calls with
  | nil => intro members h _; exact h
  | cons c rest ih =>
    intro members h hfresh
    simp only [registersFresh, Bool.and_eq_true] at hfresh
    apply ih _ _ hfresh.2
    cases c with
    | registerWs wc =>
      have hnot : wc ∉ members := by simpa using hfresh.1
      exact List.Nodup.append h (List.nodup_singleton wc) (by simpa using hnot)
    | deregisterWs wc => exact h.filter _
    | sendUpdateTo wc => exact h
    | processMessage sender message => exact h

/-- When every handle is registered at most once while attached, as `serveWs` does, no
session of a reachable registry lists a handle twice. -/
theorem channels_nodup (unmarshal : Unmarshal) (marshal : Marshal) (calls : List Call)
    (hfresh : registersFresh [] calls = true) (id : String) (session : Session)
    (hs : (run unmarshal marshal calls).sessions id = some session) :
    session.Channels.Nodup := by
  rw [((refines_run unmarshal marshal calls id).2 session hs).1]
  exact (attached_nodup_foldl calls [] List.nodup_nil hfresh).filter _

/-- Claim C4.  In the registry reached from `initSessions` by any sequence of
`registerWs`, `deregisterWs`, `sendUpdateTo` and `processMessage` calls, a session id is
present if and only if some handle with that id is attached (registered and not
deregistered since); a session in the registry has a non-empty member list, namely the
attached handles with its id, it carries the id it is stored under, and so does each of
its members. -/
theorem registry_invariant (unmarshal : Unmarshal) (marshal : Marshal) (calls : List Call)
    (id : String) :
    ((run unmarshal marshal calls).sessions id ≠ none ↔
      ∃ wc, wc ∈ attached calls ∧ wc.SessionId = id) ∧
    (∀ session, (run unmarshal marshal calls).sessions id = some session →
      session.Channels ≠ [] ∧
      session.Channels = (attached calls).filter (fun wc => decide (wc.SessionId = id)) ∧
      session.SessionId = id ∧
      ∀ wc, wc ∈ session.Channels → wc.SessionId = id) := by
  have h := refines_run unmarshal marshal calls id
  constructor
  · constructor
    · intro hpresent
      cases hs : (run unmarshal marshal calls).sessions id with
      | none => exact absurd hs hpresent
      | some session =>
        obtain ⟨hc, hne, _⟩ := h.2 session hs
        obtain ⟨wc, hwc⟩ := List.exists_mem_of_ne_nil _ hne
        rw [hc] at hwc
        have hw := List.mem_filter.mp hwc
        exact ⟨wc, hw.1, by simpa using hw.2⟩
    · rintro ⟨wc, hmem, hid⟩ hnone
      have hf := h.1 hnone
      have : wc ∈ (attached calls).filter (fun wc => decide (wc.SessionId = id)) :=
        List.mem_filter.mpr ⟨hmem, by simpa using hid⟩
      rw [hf] at this
      cases this
  · intro session hs
    obtain ⟨hc, hne, hsid⟩ := h.2 session hs
    refine ⟨hne, hc, hsid, ?_⟩
    intro wc hwc
    rw [hc] at hwc
    simpa using (List.mem_filter.mp hwc).2

/-- Witness for C4: after two handles joined `room1` and the first one left, the
session is present and holds the second handle. -/
theorem registry_invariant_witness :
    [(⟨2, "room1"⟩ : WsChannel)] ≠ [] ∧
    [(⟨2, "room1"⟩ : WsChannel)] =
      (attached [.registerWs ⟨1, "room1"⟩, .processMessage ⟨1, "room1"⟩ "\x7b\"clientKey\":\"k1\",\"transpose\":5\x7d",
        .registerWs ⟨2, "room1"⟩, .deregisterWs ⟨1, "room1"⟩]).filter
        (fun wc => decide (wc.SessionId = "room1")) ∧
    "room1" = "room1" ∧
    ∀ wc, wc ∈ [(⟨2, "room1"⟩ : WsChannel)] → wc.SessionId = "room1" :=
  (registry_invariant sampleUnmarshal sampleMarshal
    [.registerWs ⟨1, "room1"⟩, .processMessage ⟨1, "room1"⟩ "\x7b\"clientKey\":\"k1\",\"transpose\":5\x7d",
     .registerWs ⟨2, "room1"⟩, .deregisterWs ⟨1, "room1"⟩] "room1").2
    ⟨[⟨2, "room1"⟩], "room1", "k1", ⟨"", 5, ""⟩⟩ (by decide)

theorem deregisterWs_other_session (wc : WsChannel) (st : State) (id : String)
    (hid : id ≠ wc.SessionId) : (deregisterWs wc st).sessions id = st.sessions id := by
  rw [deregisterWs_eq]
  split
  · rfl
  · split_ifs
    · exact if_neg hid
    · exact if_neg hid

/-- Claim C5.  Calling `deregisterWs h` twice yields the same state as calling it once,
in every state; so the teardown of `receiveWorker`, which calls `deregisterWs` and then
`cleanupWs`, ends in the state of `cleanupWs` alone.  And `deregisterWs h` changes
nothing when the session of `h` is absent, or when `h` is not among the members of its
session, that session having at least one member, as it has in every registry reached
from `initSessions` by a sequence of calls. -/
theorem deregisterWs_idempotent (h : WsChannel) (st : State) :
    deregisterWs h (deregisterWs h st) = deregisterWs h st ∧
    cleanupWs h (deregisterWs h st) = cleanupWs h st ∧
    (st.sessions h.SessionId = none → deregisterWs h st = st) ∧
    (∀ session, st.sessions h.SessionId = some session → session.Channels ≠ [] →
      h ∉ session.Channels → deregisterWs h st = st) ∧
    (∀ (unmarshal : Unmarshal) (marshal : Marshal) (calls : List Call) (session : Session),
      st = run unmarshal marshal calls → st.sessions h.SessionId = some session →
      h ∉ session.Channels → deregisterWs h st = st) := by
  have hnone : ∀ st0 : State, st0.sessions h.SessionId = none → deregisterWs h st0 = st0 := by
    intro st0 h0
    rw [deregisterWs_eq]
    simp only [h0]
  have hidem : deregisterWs h (deregisterWs h st) = deregisterWs h st := by
    cases hs : st.sessions h.SessionId with
    | none => rw [hnone st hs, hnone st hs]
    | some session =>
      by_cases hempty : session.Channels.filter (fun nwc => decide (h ≠ nwc)) = []
      · have h1 : deregisterWs h st = { st with sessions := st.sessions.delete h.SessionId } := by
          rw [deregisterWs_eq]
          simp only [hs, hempty, if_true]
        rw [h1]
        exact hnone _ (SessionMap.delete_self _ _)
      · have h1 : deregisterWs h st =
            { st with sessions := st.sessions.store h.SessionId { session with Channels := session.Channels.filter (fun nwc => decide (h ≠ nwc)) } } := by
          rw [deregisterWs_eq]
          simp only [hs, hempty, if_false]
        rw [h1, deregisterWs_eq]
        simp only [SessionMap.store_self, List.filter_filter, Bool.and_self]
        rw [if_neg hempty]
        apply State.ext
        · funext k
          by_cases hk : k = h.SessionId
          · subst hk
            simp only [SessionMap.store_self]
          · simp only [SessionMap.store_other _ _ _ _ hk]
        · rfl
        · rfl
  have hnomem : ∀ session, st.sessions h.SessionId = some session → session.Channels ≠ [] →
      h ∉ session.Channels → deregisterWs h st = st := by
    intro session hs hne hmem
    have hf : session.Channels.filter (fun nwc => decide (h ≠ nwc)) = session.Channels := by
      apply List.filter_eq_self.mpr
      intro x hx
      have : h ≠ x := fun e => hmem (e ▸ hx)
      simpa using this
    rw [deregisterWs_eq]
    simp only [hs, hf, hne, if_false]
    apply State.ext
    · funext k
      by_cases hk : k = h.SessionId
      · subst hk
        simp only [SessionMap.store_self, hs]
      · simp only [SessionMap.store_other _ _ _ _ hk]
    · rfl
    · rfl
  refine ⟨hidem, ?_, hnone st, hnomem, ?_⟩
  · unfold cleanupWs
    rw [hidem]
  · intro unmarshal marshal calls session hrun hs hmem
    refine hnomem session hs ?_ hmem
    subst hrun
    exact ((refines_run unmarshal marshal calls h.SessionId).2 session hs).2.1

/-- Witness for C5: a handle that never joined `room1` is deregistered while another
handle is attached there; nothing changes. -/
theorem deregisterWs_idempotent_witness :
    deregisterWs ⟨2, "room1"⟩ (run sampleUnmarshal sampleMarshal [.registerWs ⟨1, "room1"⟩]) =
      run sampleUnmarshal sampleMarshal [.registerWs ⟨1, "room1"⟩] :=
  (deregisterWs_idempotent ⟨2, "room1"⟩
    (run sampleUnmarshal sampleMarshal [.registerWs ⟨1, "room1"⟩])).2.2.2.2
    sampleUnmarshal sampleMarshal [.registerWs ⟨1, "room1"⟩]
    ⟨[⟨1, "room1"⟩], "room1", "", ⟨"", 0, ""⟩⟩ rfl (by decide) (by decide)

/-- Deregistering a list of handles that contains every member of the session under
`id` removes that session, when it has a member and its members carry its id. -/
theorem deregister_all_members (id : String) :
    ∀ (detached : List WsChannel) (st : State),
      (∀ session, st.sessions id = some session →
        session.Channels ≠ [] ∧
        ∀ wc, wc ∈ session.Channels → wc.SessionId = id ∧ wc ∈ detached) →
      (detached.foldl (fun acc wc => deregisterWs wc acc) st).sessions id = none := by
  intro detached
  induction detached with
  | nil =>
    intro st h
    cases hs : st.sessions id with
    | none => exact hs
    | some session =>
      obtain ⟨hne, hall⟩ := h session hs
      obtain ⟨wc, hwc⟩ := List.exists_mem_of_ne_nil _ hne
      cases (hall wc hwc).2
  | cons d rest ih =>
    intro st h
    apply ih (deregisterWs d st)
    intro s1 hs1
    by_cases hid : id = d.SessionId
    · subst hid
      rw [deregisterWs_eq] at hs1
      cases hs : st.sessions d.SessionId with
      | none =>
        simp only [hs] at hs1
        cases hs1
      | some session =>
        obtain ⟨_, hall⟩ := h session hs
        simp only [hs] at hs1
        by_cases hempty : session.Channels.filter (fun nwc => decide (d ≠ nwc)) = []
        · rw [if_pos hempty] at hs1
          simp only [SessionMap.delete_self] at hs1
          cases hs1
        · rw [if_neg hempty] at hs1
          simp only [SessionMap.store_self] at hs1
          cases hs1
          refine ⟨hempty, ?_⟩
          intro wc hwc
          have hw := List.mem_filter.mp hwc
          have hne : d ≠ wc := by simpa using hw.2
          obtain ⟨hi, hm⟩ := hall wc hw.1
          refine ⟨hi, ?_⟩
          cases List.mem_cons.mp hm with
          | inl e => exact absurd e.symm hne
          | inr e => exact e
    · rw [deregisterWs_other_session d st id hid] at hs1
      obtain ⟨hne, hall⟩ := h s1 hs1
      refine ⟨hne, ?_⟩
      intro wc hwc
      obtain ⟨hi, hm⟩ := hall wc hwc
      refine ⟨hi, ?_⟩
      cases List.mem_cons.mp hm with
      | inl e => exact absurd (by rw [← hi, e]) hid
      | inr e => exact e

/-- Claim C6.  Take a session that exists after any sequence of calls (created, claimed
and mutated in whatever way), deregister a list of handles that contains every one of
its members, and then register a handle `h` under the same id: the session was removed
in between, and the session that `h` joins has an empty key, the zero state (empty
`SongPath`, `Transpose` 0, empty `Section`) and `h` as its only member. -/
theorem no_leak_across_gap (unmarshal : Unmarshal) (marshal : Marshal) (calls : List Call)
    (id : String) (session : Session) (detached : List WsChannel) (h : WsChannel)
    (hs : (run unmarshal marshal calls).sessions id = some session)
    (hall : ∀ wc, wc ∈ session.Channels → wc ∈ detached)
    (hid : h.SessionId = id) :
    (detached.foldl (fun acc wc => deregisterWs wc acc)
      (run unmarshal marshal calls)).sessions id = none ∧
    (registerWs h (detached.foldl (fun acc wc => deregisterWs wc acc)
      (run unmarshal marshal calls))).sessions id =
        some { Channels := [h], SessionId := id, SessionKey := "",
               SessionData := { SongPath := "", Transpose := 0, Section := "" } } := by
  have hgone : (detached.foldl (fun acc wc => deregisterWs wc acc)
      (run unmarshal marshal calls)).sessions id = none := by
    apply deregister_all_members id detached
    intro s0 hs0
    rw [hs] at hs0
    cases hs0
    obtain ⟨hch, hne, _⟩ := (refines_run unmarshal marshal calls id).2 session hs
    refine ⟨hne, ?_⟩
    intro wc hwc
    refine ⟨?_, hall wc hwc⟩
    rw [hch] at hwc
    simpa using (List.mem_filter.mp hwc).2
  refine ⟨hgone, ?_⟩
  subst hid
  unfold registerWs
  simp only [hgone, SessionMap.store_self, List.nil_append]

/-- Witness for C6: `room1` is claimed with `k1` and its transposition set to 5 while
two handles are attached; both leave; a third handle finds a fresh session. -/
theorem no_leak_across_gap_witness :
    (registerWs ⟨3, "room1"⟩
      ([(⟨1, "room1"⟩ : WsChannel), ⟨2, "room1"⟩].foldl (fun acc wc => deregisterWs wc acc)
        (run sampleUnmarshal sampleMarshal
          [.registerWs ⟨1, "room1"⟩, .processMessage ⟨1, "room1"⟩ "\x7b\"clientKey\":\"k1\",\"transpose\":5\x7d",
           .registerWs ⟨2, "room1"⟩]))).sessions "room1" =
      some { Channels := [⟨3, "room1"⟩], SessionId := "room1", SessionKey := "",
             SessionData := { SongPath := "", Transpose := 0, Section := "" } } :=
  (no_leak_across_gap sampleUnmarshal sampleMarshal
    [.registerWs ⟨1, "room1"⟩, .processMessage ⟨1, "room1"⟩ "\x7b\"clientKey\":\"k1\",\"transpose\":5\x7d", .registerWs ⟨2, "room1"⟩]
    "room1" ⟨[⟨1, "room1"⟩, ⟨2, "room1"⟩], "room1", "k1", ⟨"", 5, ""⟩⟩
    [⟨1, "room1"⟩, ⟨2, "room1"⟩] ⟨3, "room1"⟩ (by decide) (by decide) rfl).2

/-! ## The claim and authorization protocol -/

/-- Claim C1.  Take a session that is unclaimed and a run of inbound messages processed
by senders of that session.  While every decoded message carries an empty `clientKey`
the session's `SessionKey` stays empty; and once a message `first` with a non-empty
`clientKey` follows, the `SessionKey` equals that `clientKey` right after it and after
any further messages `later`, whatever keys those carry. -/
theorem secret_first_wins (unmarshal : Unmarshal) (marshal : Marshal) (id : String)
    (st : State) (session : Session) (before : List (WsChannel × String))
    (hs : st.sessions id = some session)
    (hk : session.SessionKey = "")
    (hsend : ∀ p ∈ before, p.1.SessionId = id)
    (hempty : ∀ p ∈ before, ∀ m, unmarshal p.2 = .ok m → m.ClientKey = "") :
    (∃ session', (processMessages unmarshal marshal before st).sessions id = some session' ∧
      session'.SessionKey = "") ∧
    (∀ (first : WsChannel × String) (claim : SessionDataMsg) (later : List (WsChannel × String)),
      first.1.SessionId = id → unmarshal first.2 = .ok claim → claim.ClientKey ≠ "" →
      (∀ p ∈ later, p.1.SessionId = id) →
      ∃ session', (processMessages unmarshal marshal (before ++ first :: later) st).sessions id
          = some session' ∧
        session'.SessionKey = claim.ClientKey) := by
  obtain ⟨s0, h0, hk0⟩ :=
    processMessages_key_empty unmarshal marshal id before st session hs hk hsend hempty
  refine ⟨⟨s0, h0, hk0⟩, ?_⟩
  intro first claim later hfirst hclaim hne hlater
  subst hfirst
  obtain ⟨s1, h1, _, _, hkey⟩ := processMessage_sender_session unmarshal marshal first.1 first.2
    (processMessages unmarshal marshal before st) s0 h0
  have hk1 : s1.SessionKey = claim.ClientKey := by
    rw [hkey, hclaim]
    exact if_pos ⟨hk0, hne⟩
  obtain ⟨s2, h2, hk2⟩ := processMessages_key_kept unmarshal marshal first.1.SessionId later
    (processMessage unmarshal marshal first.1 first.2
      (processMessages unmarshal marshal before st)) s1 h1 (by rw [hk1]; exact hne) hlater
  refine ⟨s2, ?_, hk2.trans hk1⟩
  rw [processMessages_append]
  exact h2

/-- Witness for C1: in `room1` a message without a key comes first, then `k1` claims
the session, then a message carrying `bad` arrives; the key is `k1`. -/
theorem secret_first_wins_witness :
    ∃ session',
      (processMessages sampleUnmarshal sampleMarshal
        ([(⟨1, "room1"⟩, "\x7b\"section\":\"verse2\"\x7d")] ++ (⟨1, "room1"⟩, "\x7b\"clientKey\":\"k1\",\"transpose\":5\x7d") :: [(⟨2, "room1"⟩, "\x7b\"clientKey\":\"bad\",\"transpose\":9\x7d")])
        (run sampleUnmarshal sampleMarshal
          [.registerWs ⟨1, "room1"⟩, .registerWs ⟨2, "room1"⟩])).sessions "room1"
        = some session' ∧
      session'.SessionKey = "k1" :=
  (secret_first_wins sampleUnmarshal sampleMarshal "room1"
    (run sampleUnmarshal sampleMarshal [.registerWs ⟨1, "room1"⟩, .registerWs ⟨2, "room1"⟩])
    ⟨[⟨1, "room1"⟩, ⟨2, "room1"⟩], "room1", "", ⟨"", 0, ""⟩⟩
    [(⟨1, "room1"⟩, "\x7b\"section\":\"verse2\"\x7d")]
    (by decide) rfl (by decide)
    (by
      intro p hp m hm
      rw [List.mem_singleton.mp hp] at hm
      cases hm
      rfl)).2
    (⟨1, "room1"⟩, "\x7b\"clientKey\":\"k1\",\"transpose\":5\x7d") ⟨⟨"", 5, ""⟩, "k1"⟩ [(⟨2, "room1"⟩, "\x7b\"clientKey\":\"bad\",\"transpose\":9\x7d")]
    rfl rfl (by decide) (by decide)

/-- Claim C2.  A decoded message whose `clientKey` differs from the non-empty secret of
the sender's session is rejected: `processMessage` leaves the session's `SongPath`,
`Transpose`, `SessionKey` and members as they were, leaves every other session as it
was, and sends nothing on the channel of any handle. -/
theorem processMessage_unauthorized_rejected (unmarshal : Unmarshal) (marshal : Marshal)
    (sender : WsChannel) (message : String) (st : State)
    (session : Session) (messageData : SessionDataMsg)
    (hs : st.sessions sender.SessionId = some session)
    (hd : unmarshal message = .ok messageData)
    (hk : session.SessionKey ≠ "")
    (hne : messageData.ClientKey ≠ session.SessionKey) :
    (∃ session', (processMessage unmarshal marshal sender message st).sessions sender.SessionId
          = some session' ∧
        session'.SessionData.SongPath = session.SessionData.SongPath ∧
        session'.SessionData.Transpose = session.SessionData.Transpose ∧
        session'.SessionKey = session.SessionKey ∧
        session'.Channels = session.Channels) ∧
    (∀ id, id ≠ sender.SessionId →
      (processMessage unmarshal marshal sender message st).sessions id = st.sessions id) ∧
    (processMessage unmarshal marshal sender message st).SendChannel = st.SendChannel := by
  rw [processMessage_decoded unmarshal marshal sender message st session messageData hs hd]
  have hno : ¬ (messageData.ClientKey =
      (if session.SessionKey = "" ∧ messageData.ClientKey ≠ "" then messageData.ClientKey
       else session.SessionKey)) := by
    rw [if_neg (fun h => hk h.1)]
    exact hne
  rw [if_neg hno]
  refine ⟨⟨_, if_pos rfl, rfl, rfl, rfl, rfl⟩, ?_, rfl⟩
  intro id hid
  exact if_neg hid

/-- Witness for C2: the session `room1` was claimed with `k1`; a message carrying the key
`bad` is rejected. -/
theorem processMessage_unauthorized_rejected_witness :
    ∃ session',
      (processMessage sampleUnmarshal sampleMarshal ⟨2, "room1"⟩ "\x7b\"clientKey\":\"bad\",\"transpose\":9\x7d"
        (run sampleUnmarshal sampleMarshal
          [.registerWs ⟨1, "room1"⟩, .processMessage ⟨1, "room1"⟩ "\x7b\"clientKey\":\"k1\",\"transpose\":5\x7d",
           .registerWs ⟨2, "room1"⟩])).sessions "room1" = some session' ∧
      session'.SessionData.SongPath = "" ∧
      session'.SessionData.Transpose = 5 ∧
      session'.SessionKey = "k1" ∧
      session'.Channels = [⟨1, "room1"⟩, ⟨2, "room1"⟩] :=
  (processMessage_unauthorized_rejected sampleUnmarshal sampleMarshal ⟨2, "room1"⟩ "\x7b\"clientKey\":\"bad\",\"transpose\":9\x7d"
    (run sampleUnmarshal sampleMarshal
      [.registerWs ⟨1, "room1"⟩, .processMessage ⟨1, "room1"⟩ "\x7b\"clientKey\":\"k1\",\"transpose\":5\x7d", .registerWs ⟨2, "room1"⟩])
    ⟨[⟨1, "room1"⟩, ⟨2, "room1"⟩], "room1", "k1", ⟨"", 5, ""⟩⟩
    ⟨⟨"", 9, ""⟩, "bad"⟩
    (by decide) rfl (by decide) (by decide)).1

/-- Claim C3.  For an existing session and a decoded message with a non-empty `section`,
after `processMessage` the session's `Section` is the message's, whatever the message's
`clientKey` and the session's secret are. -/
theorem processMessage_section_unconditional (unmarshal : Unmarshal) (marshal : Marshal)
    (sender : WsChannel) (message : String) (st : State)
    (session : Session) (messageData : SessionDataMsg)
    (hs : st.sessions sender.SessionId = some session)
    (hd : unmarshal message = .ok messageData)
    (hsec : messageData.Section ≠ "") :
    ∃ session', (processMessage unmarshal marshal sender message st).sessions sender.SessionId
        = some session' ∧
      session'.SessionData.Section = messageData.Section := by
  rw [processMessage_decoded unmarshal marshal sender message st session messageData hs hd]
  by_cases hauth : messageData.ClientKey =
      (if session.SessionKey = "" ∧ messageData.ClientKey ≠ "" then messageData.ClientKey
       else session.SessionKey)
  · rw [if_pos hauth]
    split
    · exact ⟨_, if_pos rfl, if_pos hsec⟩
    · rw [(broadcast_sessions _ _ _).1]
      exact ⟨_, if_pos rfl, if_pos hsec⟩
  · rw [if_neg hauth]
    exact ⟨_, if_pos rfl, if_pos hsec⟩

/-- Witness for C3: the session `room1` is claimed with `k1`; a message without a key
moves the section marker. -/
theorem processMessage_section_unconditional_witness :
    ∃ session',
      (processMessage sampleUnmarshal sampleMarshal ⟨2, "room1"⟩ "\x7b\"section\":\"verse2\"\x7d"
        (run sampleUnmarshal sampleMarshal
          [.registerWs ⟨1, "room1"⟩, .processMessage ⟨1, "room1"⟩ "\x7b\"clientKey\":\"k1\",\"transpose\":5\x7d",
           .registerWs ⟨2, "room1"⟩])).sessions "room1" = some session' ∧
      session'.SessionData.Section = "verse2" :=
  processMessage_section_unconditional sampleUnmarshal sampleMarshal ⟨2, "room1"⟩ "\x7b\"section\":\"verse2\"\x7d"
    (run sampleUnmarshal sampleMarshal
      [.registerWs ⟨1, "room1"⟩, .processMessage ⟨1, "room1"⟩ "\x7b\"clientKey\":\"k1\",\"transpose\":5\x7d", .registerWs ⟨2, "room1"⟩])
    ⟨[⟨1, "room1"⟩, ⟨2, "room1"⟩], "room1", "k1", ⟨"", 5, ""⟩⟩
    ⟨⟨"", 0, "verse2"⟩, ""⟩
    (by decide) rfl (by decide)

/-- Claim C10.  For a decoded message whose `clientKey` equals the session's secret after
the claim step, after `processMessage` the session's `SongPath` is the message's when
that is non-empty and the previous one otherwise, and the session's `Transpose` is the
message's in every case, zero included. -/
theorem processMessage_authorized_update (unmarshal : Unmarshal) (marshal : Marshal)
    (sender : WsChannel) (message : String) (st : State)
    (session : Session) (messageData : SessionDataMsg)
    (hs : st.sessions sender.SessionId = some session)
    (hd : unmarshal message = .ok messageData)
    (hauth : messageData.ClientKey =
      (if session.SessionKey = "" ∧ messageData.ClientKey ≠ "" then messageData.ClientKey
       else session.SessionKey)) :
    ∃ session', (processMessage unmarshal marshal sender message st).sessions sender.SessionId
        = some session' ∧
      session'.SessionData.SongPath =
        (if messageData.SongPath ≠ "" then messageData.SongPath
         else session.SessionData.SongPath) ∧
      session'.SessionData.Transpose = messageData.Transpose := by
  rw [processMessage_decoded unmarshal marshal sender message st session messageData hs hd,
    if_pos hauth]
  split
  · exact ⟨_, if_pos rfl, rfl, rfl⟩
  · rw [(broadcast_sessions _ _ _).1]
    exact ⟨_, if_pos rfl, rfl, rfl⟩

/-- Witness for C10: the owner of `room1` sends a song path and no `transpose`; the
path is taken over and the transposition goes back to zero. -/
theorem processMessage_authorized_update_witness :
    ∃ session',
      (processMessage sampleUnmarshal sampleMarshal ⟨1, "room1"⟩ "\x7b\"clientKey\":\"k1\",\"songPath\":\"a.tab\"\x7d"
        (run sampleUnmarshal sampleMarshal
          [.registerWs ⟨1, "room1"⟩, .processMessage ⟨1, "room1"⟩ "\x7b\"clientKey\":\"k1\",\"transpose\":5\x7d"])).sessions "room1"
        = some session' ∧
      session'.SessionData.SongPath = (if "a.tab" ≠ "" then "a.tab" else "") ∧
      session'.SessionData.Transpose = 0 :=
  processMessage_authorized_update sampleUnmarshal sampleMarshal ⟨1, "room1"⟩ "\x7b\"clientKey\":\"k1\",\"songPath\":\"a.tab\"\x7d"
    (run sampleUnmarshal sampleMarshal
      [.registerWs ⟨1, "room1"⟩, .processMessage ⟨1, "room1"⟩ "\x7b\"clientKey\":\"k1\",\"transpose\":5\x7d"])
    ⟨[⟨1, "room1"⟩], "room1", "k1", ⟨"", 5, ""⟩⟩
    ⟨⟨"a.tab", 0, ""⟩, "k1"⟩
    (by decide) rfl (by decide)

/-! ## Broadcast -/

/-- Claim C8.  For a decoded message whose `clientKey` equals the session's secret after
the claim step, with `sents` the serialization of the session's state after the update:
`processMessage` appends `sents` to the channel of a handle once for every occurrence of
the handle in the member list, so exactly once for every member when no handle is
attached twice, and it sends nothing to a handle that is not a member. -/
theorem processMessage_broadcast_fan_out (unmarshal : Unmarshal) (marshal : Marshal)
    (sender : WsChannel) (message : String) (st : State)
    (session session' : Session) (messageData : SessionDataMsg) (sents : String)
    (hs : st.sessions sender.SessionId = some session)
    (hd : unmarshal message = .ok messageData)
    (hauth : messageData.ClientKey =
      (if session.SessionKey = "" ∧ messageData.ClientKey ≠ "" then messageData.ClientKey
       else session.SessionKey))
    (hs' : (processMessage unmarshal marshal sender message st).sessions sender.SessionId
      = some session')
    (hm : marshal session'.SessionData = .ok sents) :
    session'.Channels = session.Channels ∧
    (∀ h, (processMessage unmarshal marshal sender message st).SendChannel h =
      st.SendChannel h ++ List.replicate (session.Channels.count h) sents) ∧
    (session.Channels.Nodup → ∀ h ∈ session.Channels,
      (processMessage unmarshal marshal sender message st).SendChannel h =
        st.SendChannel h ++ [sents]) ∧
    (∀ h, h ∉ session.Channels →
      (processMessage unmarshal marshal sender message st).SendChannel h = st.SendChannel h) := by
  have hall : session'.Channels = session.Channels ∧
      ∀ h, (processMessage unmarshal marshal sender message st).SendChannel h =
        st.SendChannel h ++ List.replicate (session.Channels.count h) sents := by
    rw [processMessage_decoded unmarshal marshal sender message st session messageData hs hd,
      if_pos hauth] at hs' ⊢
    revert hs'
    split
    · rename_i e he
      intro hs'
      have hst : some _ = some session' := (if_pos rfl).symm.trans hs'
      have hdata := congrArg Session.SessionData (Option.some.inj hst)
      simp only at hdata
      rw [← hdata, he] at hm
      cases hm
    · rename_i p hp
      intro hs'
      rw [(broadcast_sessions _ _ _).1] at hs'
      have hst : some _ = some session' := (if_pos rfl).symm.trans hs'
      have hdata := congrArg Session.SessionData (Option.some.inj hst)
      have hch := congrArg Session.Channels (Option.some.inj hst)
      simp only at hdata hch
      rw [← hdata, hp] at hm
      cases hm
      exact ⟨hch.symm, fun h => broadcast_SendChannel _ _ _ h⟩
  refine ⟨hall.1, hall.2, ?_, ?_⟩
  · intro hnd h hmem
    rw [hall.2 h, List.count_eq_one_of_mem hnd hmem]
    rfl
  · intro h hmem
    rw [hall.2 h, List.count_eq_zero_of_not_mem hmem]
    simp

/-- Witness for C8: two handles are attached to `room1`; the claiming message of the
first one reaches both. -/
theorem processMessage_broadcast_fan_out_witness :
    (processMessage sampleUnmarshal sampleMarshal ⟨1, "room1"⟩ "\x7b\"clientKey\":\"k1\",\"transpose\":5\x7d"
        (run sampleUnmarshal sampleMarshal
          [.registerWs ⟨1, "room1"⟩, .registerWs ⟨2, "room1"⟩])).SendChannel ⟨2, "room1"⟩ =
      [] ++ ["\x7b\"transpose\":5\x7d"] :=
  (processMessage_broadcast_fan_out sampleUnmarshal sampleMarshal ⟨1, "room1"⟩ "\x7b\"clientKey\":\"k1\",\"transpose\":5\x7d"
    (run sampleUnmarshal sampleMarshal [.registerWs ⟨1, "room1"⟩, .registerWs ⟨2, "room1"⟩])
    ⟨[⟨1, "room1"⟩, ⟨2, "room1"⟩], "room1", "", ⟨"", 0, ""⟩⟩
    ⟨[⟨1, "room1"⟩, ⟨2, "room1"⟩], "room1", "k1", ⟨"", 5, ""⟩⟩
    ⟨⟨"", 5, ""⟩, "k1"⟩ "\x7b\"transpose\":5\x7d"
    (by decide) rfl (by decide) (by decide) rfl).2.2.1 (by decide) ⟨2, "room1"⟩ (by decide)

/-- Claim C7.  For every registry state and handle `h`, with `sents` the serialization
of the state `d` of the session of `h` (the existing state when the session exists, the
zero state when `registerWs` creates it): after `registerWs h` the session of `h` holds
`h` and has state `d`, and `sendUpdateTo h` then appends exactly `sents` to the channel
of `h` and nothing to the channel of any other handle. -/
theorem connect_sends_current_state (marshal : Marshal) (h : WsChannel) (st : State)
    (d : SessionData) (sents : String)
    (hstate : d = match st.sessions h.SessionId with
      | some session => session.SessionData
      | none => { SongPath := "", Transpose := 0, Section := "" })
    (hm : marshal d = .ok sents) :
    (∃ session', (registerWs h st).sessions h.SessionId = some session' ∧
      session'.SessionData = d ∧ h ∈ session'.Channels) ∧
    (sendUpdateTo marshal h (registerWs h st)).SendChannel h = st.SendChannel h ++ [sents] ∧
    (∀ h', h' ≠ h →
      (sendUpdateTo marshal h (registerWs h st)).SendChannel h' = st.SendChannel h') ∧
    (sendUpdateTo marshal h (registerWs h st)).sessions = (registerWs h st).sessions := by
  have hreg : ∃ session', (registerWs h st).sessions h.SessionId = some session' ∧
      session'.SessionData = d ∧ h ∈ session'.Channels := by
    subst hstate
    cases hlook : st.sessions h.SessionId with
    | none =>
      refine ⟨_, if_pos rfl, ?_, ?_⟩
      · simp only [hlook]
      · simp
    | some session =>
      refine ⟨_, if_pos rfl, ?_, ?_⟩
      · simp only [hlook]
      · simp
  obtain ⟨session', hs', hd', hmem⟩ := hreg
  have hsend : sendUpdateTo marshal h (registerWs h st) = send h sents (registerWs h st) := by
    unfold sendUpdateTo
    simp only [hs', hd', hm]
  rw [hsend]
  refine ⟨⟨session', hs', hd', hmem⟩, ?_, ?_, rfl⟩
  · exact if_pos rfl
  · intro h' hne
    exact if_neg hne

/-- Witness for C7: a second handle joins `room1` after the transposition was set to 5
and is sent that state. -/
theorem connect_sends_current_state_witness :
    (sendUpdateTo sampleMarshal ⟨2, "room1"⟩
        (registerWs ⟨2, "room1"⟩
          (run sampleUnmarshal sampleMarshal
            [.registerWs ⟨1, "room1"⟩, .processMessage ⟨1, "room1"⟩ "\x7b\"clientKey\":\"k1\",\"transpose\":5\x7d"]))).SendChannel
        ⟨2, "room1"⟩ =
      [] ++ ["\x7b\"transpose\":5\x7d"] :=
  (connect_sends_current_state sampleMarshal ⟨2, "room1"⟩
    (run sampleUnmarshal sampleMarshal
      [.registerWs ⟨1, "room1"⟩, .processMessage ⟨1, "room1"⟩ "\x7b\"clientKey\":\"k1\",\"transpose\":5\x7d"])
    ⟨"", 5, ""⟩ "\x7b\"transpose\":5\x7d" (by decide) rfl).2.1

/-! ## Malformed input -/

/-- Claim C9, as stated, fails: on the empty registry the sender has no session, and
`processMessage` calls the sender's `CancelFunc` before it looks at the text, so a text
that does not decode does trigger the sender's cancellation. -/
theorem processMessage_malformed_cancels_without_session :
    sampleUnmarshal "garbage" = .error "invalid character" ∧
    initSessions.Cancelled ⟨1, "room1"⟩ = false ∧
    (processMessage sampleUnmarshal sampleMarshal ⟨1, "room1"⟩ "garbage"
      initSessions).Cancelled ⟨1, "room1"⟩ = true :=
  ⟨rfl, rfl, by decide⟩

/-- Claim C9, amended.  For every registry state and every text that fails to decode,
`processMessage` leaves the whole session map unchanged and sends nothing on any
channel; when the sender's session is in the registry it changes nothing at all, so it
does not call the sender's `CancelFunc`. -/
theorem processMessage_malformed_dropped (unmarshal : Unmarshal) (marshal : Marshal)
    (sender : WsChannel) (message : String) (st : State) (e : String)
    (hd : unmarshal message = .error e) :
    (processMessage unmarshal marshal sender message st).sessions = st.sessions ∧
    (processMessage unmarshal marshal sender message st).SendChannel = st.SendChannel ∧
    (st.sessions sender.SessionId ≠ none →
      processMessage unmarshal marshal sender message st = st) := by
  unfold processMessage
  cases hs : st.sessions sender.SessionId with
  | none => exact ⟨rfl, rfl, fun h => absurd rfl h⟩
  | some session =>
    simp [hd]

/-- Witness for the amended C9: a text that does not decode, sent by a member of
`room1`, changes nothing. -/
theorem processMessage_malformed_dropped_witness :
    processMessage sampleUnmarshal sampleMarshal ⟨1, "room1"⟩ "garbage"
        (run sampleUnmarshal sampleMarshal [.registerWs ⟨1, "room1"⟩]) =
      run sampleUnmarshal sampleMarshal [.registerWs ⟨1, "room1"⟩] :=
  (processMessage_malformed_dropped sampleUnmarshal sampleMarshal ⟨1, "room1"⟩ "garbage"
    (run sampleUnmarshal sampleMarshal [.registerWs ⟨1, "room1"⟩]) "invalid character"
    rfl).2.2 (by decide)

end Tabserv
